import Mathlib

/-!
Verification of the kopidaz typed key-value layer: a shallow embedding of
`src/buffer.rs`, `src/lib.rs`, `src/error.rs` and `src/tree.rs`, followed by
theorems settling the specification claims.

Modelling conventions:
* Byte sequences (`Vec<u8>`, sled keys and values) are `List Nat`.
* The external sled store is a state: an association list of raw entries, a
  monotonic id counter, and a fault schedule injecting the store's possible
  failures at the raw-call boundary (sled calls are fallible black boxes).
* `async` code has no concurrency visible at this layer: each `.await` runs to
  completion, so futures are modelled by their results; the collision `yield`
  is recorded in an instrumentation log.
* The unbounded retry loop of `IdBuilder::generate` is modelled with explicit
  fuel (`none` = the loop is still running after `fuel` iterations).
* The bincode codec is an external collaborator; it is modelled abstractly as
  a `Codec` record for the generic theorems, and concretely (varint, big
  endian, no limit — the crate's fixed configuration) for `u64` values.
-/

namespace Kopidaz

/-- Raw byte strings (`Vec<u8>` / `&[u8]` / sled `IVec`). -/
abbrev Bytes := List Nat

/-- `error.rs`: `ErrorKind` with its three variants (`Sled`, `Serde`,
`Custom`); the payloads (trait objects) are abstracted to numeric codes.
The `Error` wrapper struct adds only boxing, so we identify the two. -/
inductive Error where
  | sled (code : Nat) : Error
  | serde (code : Nat) : Error
  | custom (code : Nat) : Error
deriving DecidableEq, Repr

/-- `buffer.rs`: `Buffer` owns one growable byte sequence. -/
structure Buffer where
  bytes : Bytes
deriving DecidableEq, Repr

/-- `Buffer::default()`: an empty buffer. -/
def Buffer.emptyBuf : Buffer := ⟨[]⟩

/-- A serde-style codec for values of type `α`, the boundary of the external
bincode collaborator at the crate's fixed configuration.  Encoding and
decoding are both fallible (`bincode::Error`, mapped into `Error.serde` by
the `From` impls of `error.rs`). -/
structure Codec (α : Type) where
  enc : α → Except Error Bytes
  dec : Bytes → Except Error α

/-- `Buffer::encode`: clear the previous content, serialize into the buffer,
return a view of the fresh bytes together with the mutated buffer.  On codec
failure the error propagates; the buffer keeps no useful content (it was
cleared first, partial output is never observed by the crate). -/
def Buffer.encode {α : Type} (c : Codec α) (_b : Buffer) (data : α) :
    Except Error Bytes × Buffer :=
  match c.enc data with
  | .ok bs => (.ok bs, ⟨bs⟩)
  | .error e => (.error e, ⟨[]⟩)

/-- `Buffer::free`: reset to the default (empty) state. -/
def Buffer.freeBuf (_b : Buffer) : Buffer := Buffer.emptyBuf

/-- `impl Clone for Buffer`: `fn clone(&self) -> Self { Self::default() }`.
The pair returned is (the clone, the original after cloning); `&self` is
read-only so the original is returned as-is. -/
def Buffer.cloneModel (b : Buffer) : Buffer × Buffer := (Buffer.emptyBuf, b)

/-- `buffer.rs`: the `Allocation` trait, as a record of operations over an
explicit strategy state `σ`. -/
structure Allocation (σ : Type) where
  make : σ → Buffer × σ
  save : Buffer → σ → σ
  free : σ → σ

/-- `OneTime` strategy: `make` always returns `Buffer::default()`, `save`
discards its argument, `free` does nothing.  The strategy carries no state. -/
def OneTime : Allocation Unit where
  make := fun s => (Buffer.emptyBuf, s)
  save := fun _ s => s
  free := fun s => s

/-- `Pool` strategy state: the `Vec<Buffer>` of saved buffers, with the list
head playing the role of the vector's end (`push`/`pop` side). -/
abbrev PoolSt := List Buffer

/-- `Pool` strategy: `make` pops a saved buffer if any (else allocates a
default one), `save` pushes, `free` drops everything. -/
def Pool : Allocation PoolSt where
  make := fun s =>
    match s with
    | [] => (Buffer.emptyBuf, [])
    | b :: rest => (b, rest)
  save := fun b s => b :: s
  free := fun _ => []

/-- `impl Clone for Pool`: `fn clone(&self) -> Self { Self::default() }`.
The pair returned is (the clone's state, the original state after cloning). -/
def Pool.cloneModel (p : PoolSt) : PoolSt × PoolSt := ([], p)

/-! `DefaultPool` delegates every operation to a thread-local `Pool`; on a
single thread it is exactly `Pool` acting on that thread's state, so the
theorems below state pool properties over `Pool`. -/

/-! ### The bincode codec at the crate's configuration, for `u64`

`lib.rs` fixes `bincode::DefaultOptions::new().with_no_limit().with_big_endian()`:
varint integer encoding with big-endian multi-byte values.  Modelled from the
spec: the codec itself (bincode's varint layout for unsigned integers) is an
external collaborator not under `src/`; it writes `n` as a single byte when
`n ≤ 250`, else a marker byte `251`/`252`/`253` followed by the big-endian
`u16`/`u32`/`u64` representation. -/

/-- Big-endian bytes of `n`, `w` bytes wide (least significant byte last). -/
def beBytes : Nat → Nat → Bytes
  | 0, _ => []
  | w + 1, n => beBytes w (n / 256) ++ [n % 256]

/-- Value of a big-endian byte string. -/
def beVal (l : Bytes) : Nat := l.foldl (fun acc b => acc * 256 + b) 0

/-- bincode varint encoding of a `u64` value (big-endian option). -/
def encodeU64 (n : Nat) : Bytes :=
  if n ≤ 250 then [n]
  else if n < 2 ^ 16 then 251 :: beBytes 2 n
  else if n < 2 ^ 32 then 252 :: beBytes 4 n
  else 253 :: beBytes 8 n

/-- bincode varint decoding of a `u64` value (big-endian option); reads the
leading varint, `none` on a truncated input or on the `u128` marker. -/
def decodeU64 (l : Bytes) : Option Nat :=
  match l with
  | [] => none
  | b :: rest =>
    if b ≤ 250 then some b
    else if b = 251 then
      match rest with
      | b1 :: b2 :: _ => some (beVal [b1, b2])
      | _ => none
    else if b = 252 then
      match rest with
      | b1 :: b2 :: b3 :: b4 :: _ => some (beVal [b1, b2, b3, b4])
      | _ => none
    else if b = 253 then
      match rest with
      | b1 :: b2 :: b3 :: b4 :: b5 :: b6 :: b7 :: b8 :: _ =>
        some (beVal [b1, b2, b3, b4, b5, b6, b7, b8])
      | _ => none
    else none

/-! ### The external sled store at the boundary of `tree.rs`

A `Tree<K, V>` handle wraps one sled partition.  The partition is modelled as
an association list from encoded keys to encoded values; `Db::generate_id` is
the monotonic counter `nextId`.  Every raw sled call is fallible: a schedule
`faults` injects the store's possible errors, one entry consumed per raw
call (`none` = the call succeeds; an exhausted schedule always succeeds).
`calls` counts the raw store calls performed, for the buffer/call-count
claims. -/

structure StoreSt where
  entries : List (Bytes × Bytes)
  nextId : Nat
  faults : List (Option Nat)
  calls : Nat
deriving DecidableEq, Repr

/-- Look up the raw value stored under an encoded key. -/
def lookupB (l : List (Bytes × Bytes)) (k : Bytes) : Option Bytes :=
  match l.find? (fun p => p.1 == k) with
  | some p => some p.2
  | none => none

/-- Drop the entry stored under an encoded key. -/
def eraseB (l : List (Bytes × Bytes)) (k : Bytes) : List (Bytes × Bytes) :=
  l.filter (fun p => !(p.1 == k))

/-- Consume one slot of the fault schedule and count the raw call. -/
def StoreSt.takeFault (s : StoreSt) : Option Nat × StoreSt :=
  match s.faults with
  | [] => (none, { s with calls := s.calls + 1 })
  | f :: rest => (f, { s with faults := rest, calls := s.calls + 1 })

/-- sled `Tree::get` at the raw byte level. -/
def sledGet (s : StoreSt) (k : Bytes) : Except Error (Option Bytes) × StoreSt :=
  match s.takeFault with
  | (some c, s1) => (.error (.sled c), s1)
  | (none, s1) => (.ok (lookupB s1.entries k), s1)

/-- sled `Tree::insert` at the raw byte level: stores `v` under `k` and
returns the previous raw value, if any. -/
def sledInsert (s : StoreSt) (k v : Bytes) :
    Except Error (Option Bytes) × StoreSt :=
  match s.takeFault with
  | (some c, s1) => (.error (.sled c), s1)
  | (none, s1) =>
    (.ok (lookupB s1.entries k),
      { s1 with entries := (k, v) :: eraseB s1.entries k })

/-- sled `Tree::contains_key` at the raw byte level. -/
def sledContains (s : StoreSt) (k : Bytes) : Except Error Bool × StoreSt :=
  match s.takeFault with
  | (some c, s1) => (.error (.sled c), s1)
  | (none, s1) => (.ok (lookupB s1.entries k).isSome, s1)

/-- sled `Tree::remove` at the raw byte level: drops the entry under `k` and
returns the previous raw value, if any. -/
def sledRemove (s : StoreSt) (k : Bytes) :
    Except Error (Option Bytes) × StoreSt :=
  match s.takeFault with
  | (some c, s1) => (.error (.sled c), s1)
  | (none, s1) =>
    (.ok (lookupB s1.entries k), { s1 with entries := eraseB s1.entries k })

/-- sled `Db::generate_id`: the monotonic id counter. -/
def sledGenerateId (s : StoreSt) : Except Error Nat × StoreSt :=
  match s.takeFault with
  | (some c, s1) => (.error (.sled c), s1)
  | (none, s1) => (.ok s1.nextId, { s1 with nextId := s1.nextId + 1 })

/-! ### `tree.rs`: the typed `Tree<K, V>` operations

Each `*_raw` method takes the buffers by `&mut`, so the model returns the
mutated buffers alongside the result on every path, error or not. -/

namespace Tree

variable {K V : Type}

/-- `Tree::get_raw`: encode the key into `key_buf`, one raw `get`, decode the
result if present. -/
def get_raw (cK : Codec K) (cV : Codec V) (key : K) (keyBuf : Buffer)
    (s : StoreSt) : Except Error (Option V) × Buffer × StoreSt :=
  match keyBuf.encode cK key with
  | (.error e, kb) => (.error e, kb, s)
  | (.ok ek, kb) =>
    match sledGet s ek with
    | (.error e, s1) => (.error e, kb, s1)
    | (.ok none, s1) => (.ok none, kb, s1)
    | (.ok (some bv), s1) =>
      match cV.dec bv with
      | .error e => (.error e, kb, s1)
      | .ok v => (.ok (some v), kb, s1)

/-- `Tree::get_with`: make a buffer, run `get_raw`, save the buffer, return
the result. -/
def get_with {σ : Type} (cK : Codec K) (cV : Codec V) (key : K)
    (A : Allocation σ) (al : σ) (s : StoreSt) :
    Except Error (Option V) × StoreSt × σ :=
  let made := A.make al
  let r := get_raw cK cV key made.1 s
  (r.1, r.2.2, A.save r.2.1 made.2)

/-- `Tree::insert_raw`: encode key and value, one raw `insert`, decode the
previous value if present. -/
def insert_raw (cK : Codec K) (cV : Codec V) (key : K) (val : V)
    (keyBuf valBuf : Buffer) (s : StoreSt) :
    Except Error (Option V) × Buffer × Buffer × StoreSt :=
  match keyBuf.encode cK key with
  | (.error e, kb) => (.error e, kb, valBuf, s)
  | (.ok ek, kb) =>
    match valBuf.encode cV val with
    | (.error e, vb) => (.error e, kb, vb, s)
    | (.ok ev, vb) =>
      match sledInsert s ek ev with
      | (.error e, s1) => (.error e, kb, vb, s1)
      | (.ok none, s1) => (.ok none, kb, vb, s1)
      | (.ok (some bv), s1) =>
        match cV.dec bv with
        | .error e => (.error e, kb, vb, s1)
        | .ok v => (.ok (some v), kb, vb, s1)

/-- `Tree::insert_with`: make the key buffer then the value buffer, run
`insert_raw`, save the key buffer then the value buffer. -/
def insert_with {σ : Type} (cK : Codec K) (cV : Codec V) (key : K) (val : V)
    (A : Allocation σ) (al : σ) (s : StoreSt) :
    Except Error (Option V) × StoreSt × σ :=
  let mk := A.make al
  let mv := A.make mk.2
  let r := insert_raw cK cV key val mk.1 mv.1 s
  (r.1, r.2.2.2, A.save r.2.2.1 (A.save r.2.1 mv.2))

/-- `Tree::contains_key_raw`: encode the key, one raw `contains_key`. -/
def contains_key_raw (cK : Codec K) (key : K) (keyBuf : Buffer)
    (s : StoreSt) : Except Error Bool × Buffer × StoreSt :=
  match keyBuf.encode cK key with
  | (.error e, kb) => (.error e, kb, s)
  | (.ok ek, kb) =>
    match sledContains s ek with
    | (.error e, s1) => (.error e, kb, s1)
    | (.ok b, s1) => (.ok b, kb, s1)

/-- `Tree::contains_key_with`. -/
def contains_key_with {σ : Type} (cK : Codec K) (key : K)
    (A : Allocation σ) (al : σ) (s : StoreSt) :
    Except Error Bool × StoreSt × σ :=
  let made := A.make al
  let r := contains_key_raw cK key made.1 s
  (r.1, r.2.2, A.save r.2.1 made.2)

/-- `Tree::remove_raw`: encode the key, one raw `remove`, decode the removed
value if present. -/
def remove_raw (cK : Codec K) (cV : Codec V) (key : K) (keyBuf : Buffer)
    (s : StoreSt) : Except Error (Option V) × Buffer × StoreSt :=
  match keyBuf.encode cK key with
  | (.error e, kb) => (.error e, kb, s)
  | (.ok ek, kb) =>
    match sledRemove s ek with
    | (.error e, s1) => (.error e, kb, s1)
    | (.ok none, s1) => (.ok none, kb, s1)
    | (.ok (some bv), s1) =>
      match cV.dec bv with
      | .error e => (.error e, kb, s1)
      | .ok v => (.ok (some v), kb, s1)

/-- `Tree::remove_with`. -/
def remove_with {σ : Type} (cK : Codec K) (cV : Codec V) (key : K)
    (A : Allocation σ) (al : σ) (s : StoreSt) :
    Except Error (Option V) × StoreSt × σ :=
  let made := A.make al
  let r := remove_raw cK cV key made.1 s
  (r.1, r.2.2, A.save r.2.1 made.2)

end Tree

/-! ### `IdBuilder::generate`

The builder's four id-maker setters and four data-maker setters all normalize
the caller hooks to one canonical fallible asynchronous shape; awaiting a
hook at this layer is just applying it, so the hooks are modelled by their
result functions: `mkId : Id → Except E K` (invoked once per attempt, on the
freshly generated raw id — distinct on every attempt since the generator is
monotonic) and `mkData : K → Except E V`.  `conv` is the configured error
conversor `FE : FnOnce(Error) -> E`.

Instrumentation (`GenLog`) records the observable events of a run: how many
collision yields happened, how many times the data-maker was invoked, and the
typed keys passed to `insert_raw`. -/

structure GenLog (K : Type) where
  yields : Nat
  dataCalls : Nat
  inserts : List K

/-- One outcome of the retry loop: the result as `generate` returns it, the
two retained buffers, the store state and the log. -/
abbrev GenOut (K V E : Type) :=
  Except E (K × V) × Buffer × Buffer × StoreSt × GenLog K

/-- The retry loop of `IdBuilder::generate` (`tree.rs` lines 500–533),
running for at most `fuel` iterations; `none` means the loop is still
running (the source loop is unbounded). -/
def generateLoop {K V E : Type} (cK : Codec K) (cV : Codec V)
    (conv : Error → E) (mkId : Nat → Except E K) (mkData : K → Except E V) :
    Nat → Buffer → Buffer → StoreSt → GenLog K → Option (GenOut K V E)
  | 0, _, _, _, _ => none
  | fuel + 1, kb, vb, s, log =>
    match sledGenerateId s with
    | (.error e, s1) => some (.error (conv e), kb, vb, s1, log)
    | (.ok gid, s1) =>
      match mkId gid with
      | .error e => some (.error e, kb, vb, s1, log)
      | .ok id =>
        match Tree.contains_key_raw cK id kb s1 with
        | (.error e, kb1, s2) => some (.error (conv e), kb1, vb, s2, log)
        | (.ok true, kb1, s2) =>
          generateLoop cK cV conv mkId mkData fuel kb1 vb s2
            { log with yields := log.yields + 1 }
        | (.ok false, kb1, s2) =>
          match mkData id with
          | .error e =>
            some (.error e, kb1, vb, s2,
              { log with dataCalls := log.dataCalls + 1 })
          | .ok data =>
            match Tree.insert_raw cK cV id data kb1 vb s2 with
            | (.error e, kb2, vb1, s3) =>
              some (.error (conv e), kb2, vb1, s3,
                { log with dataCalls := log.dataCalls + 1,
                           inserts := log.inserts ++ [id] })
            | (.ok _, kb2, vb1, s3) =>
              some (.ok (id, data), kb2, vb1, s3,
                { log with dataCalls := log.dataCalls + 1,
                           inserts := log.inserts ++ [id] })

/-- `IdBuilder::generate`: make the key buffer then the value buffer, run the
retry loop, save the key buffer then the value buffer, return the loop's
output; `none` when the loop has not terminated within `fuel` iterations
(in which case control never comes back and nothing is saved). -/
def generate {K V E σ : Type} (cK : Codec K) (cV : Codec V)
    (A : Allocation σ) (conv : Error → E) (mkId : Nat → Except E K)
    (mkData : K → Except E V) (fuel : Nat) (al : σ) (s : StoreSt) :
    Option (Except E (K × V) × StoreSt × σ × GenLog K) :=
  let mk := A.make al
  let mv := A.make mk.2
  match generateLoop cK cV conv mkId mkData fuel mk.1 mv.1 s ⟨0, 0, []⟩ with
  | none => none
  | some (out, kb1, vb1, s1, log) =>
    some (out, s1, A.save vb1 (A.save kb1 mv.2), log)

/-! ### The generation protocol as the specification words it

`generateSpecLoop`/`generateSpec` transcribe §4.3 of the specification
(steps a–g plus the buffer acquisition and release around the loop), with the
presence check and the insert spelled out at the raw-call level ("encode with
the key buffer, raw contains-check"; "encoding both with the retained
buffers") instead of through the `Tree` helpers. -/

def generateSpecLoop {K V E : Type} (cK : Codec K) (cV : Codec V)
    (conv : Error → E) (mkId : Nat → Except E K) (mkData : K → Except E V) :
    Nat → Buffer → Buffer → StoreSt → GenLog K → Option (GenOut K V E)
  | 0, _, _, _, _ => none
  | fuel + 1, kb, vb, s, log =>
    -- (a) ask the store for a fresh raw id; on failure convert and stop
    match sledGenerateId s with
    | (.error e, s1) => some (.error (conv e), kb, vb, s1, log)
    | (.ok gid, s1) =>
      -- (b) id-maker on the raw id; its error terminates the loop as-is
      match mkId gid with
      | .error e => some (.error e, kb, vb, s1, log)
      | .ok id =>
        -- (c) presence check: encode with the key buffer, raw contains-check
        match kb.encode cK id with
        | (.error e, kb1) => some (.error (conv e), kb1, vb, s1, log)
        | (.ok ek, kb1) =>
          match sledContains s1 ek with
          | (.error e, s2) => some (.error (conv e), kb1, vb, s2, log)
          | (.ok present, s2) =>
            if present then
              -- (d) present: yield once, restart from (a)
              generateSpecLoop cK cV conv mkId mkData fuel kb1 vb s2
                { log with yields := log.yields + 1 }
            else
              -- (e) absent: data-maker on the key; its error stops as-is
              match mkData id with
              | .error e =>
                some (.error e, kb1, vb, s2,
                  { log with dataCalls := log.dataCalls + 1 })
              | .ok data =>
                -- (f) insert, encoding both with the retained buffers
                match kb1.encode cK id with
                | (.error e, kb2) =>
                  some (.error (conv e), kb2, vb, s2,
                    { log with dataCalls := log.dataCalls + 1,
                               inserts := log.inserts ++ [id] })
                | (.ok ek2, kb2) =>
                  match vb.encode cV data with
                  | (.error e, vb1) =>
                    some (.error (conv e), kb2, vb1, s2,
                      { log with dataCalls := log.dataCalls + 1,
                                 inserts := log.inserts ++ [id] })
                  | (.ok ev, vb1) =>
                    match sledInsert s2 ek2 ev with
                    | (.error e, s3) =>
                      some (.error (conv e), kb2, vb1, s3,
                        { log with dataCalls := log.dataCalls + 1,
                                   inserts := log.inserts ++ [id] })
                    | (.ok _, s3) =>
                      -- (g) success: return the (key, value) pair
                      some (.ok (id, data), kb2, vb1, s3,
                        { log with dataCalls := log.dataCalls + 1,
                                   inserts := log.inserts ++ [id] })

/-- §4.3 steps 1 and 3 around the loop: acquire two buffers first, return
both to the strategy regardless of the outcome. -/
def generateSpec {K V E σ : Type} (cK : Codec K) (cV : Codec V)
    (A : Allocation σ) (conv : Error → E) (mkId : Nat → Except E K)
    (mkData : K → Except E V) (fuel : Nat) (al : σ) (s : StoreSt) :
    Option (Except E (K × V) × StoreSt × σ × GenLog K) :=
  let mk := A.make al
  let mv := A.make mk.2
  match generateSpecLoop cK cV conv mkId mkData fuel mk.1 mv.1 s ⟨0, 0, []⟩ with
  | none => none
  | some (out, kb1, vb1, s1, log) =>
    some (out, s1, A.save vb1 (A.save kb1 mv.2), log)

/-- The crate's codec instance for `u64` values (the raw `Id` type): bincode
at the fixed configuration of `lib.rs`. -/
def codecU64 : Codec Nat where
  enc := fun n => .ok (encodeU64 n)
  dec := fun bs =>
    match decodeU64 bs with
    | some n => .ok n
    | none => .error (.serde 0)

/-- Number of data-maker invocations recorded by a `generate` run (0 when
the loop is still running). -/
def genDataCalls {K V E σ : Type}
    (r : Option (Except E (K × V) × StoreSt × σ × GenLog K)) : Nat :=
  match r with
  | none => 0
  | some (_, _, _, log) => log.dataCalls

/-- 1 when a `generate` run returned success, 0 otherwise. -/
def genOkFlag {K V E σ : Type}
    (r : Option (Except E (K × V) × StoreSt × σ × GenLog K)) : Nat :=
  match r with
  | some (.ok _, _, _, _) => 1
  | _ => 0


theorem beVal_append (xs : Bytes) (b : Nat) :
    beVal (xs ++ [b]) = beVal xs * 256 + b := by
  simp [beVal, List.foldl_append]

theorem beBytes_spec : ∀ (w n : Nat), n < 2 ^ (8 * w) →
    beVal (beBytes w n) = n := by
  intro w
  induction w with
  | zero =>
    intro n hn
    simp at hn
    simp [hn, beBytes, beVal]
  | succ w ih =>
    intro n hn
    have hpow : 2 ^ (8 * (w + 1)) = 256 * 2 ^ (8 * w) := by
      rw [Nat.mul_succ, pow_add]
      ring
    have hdiv : n / 256 < 2 ^ (8 * w) :=
      Nat.div_lt_of_lt_mul (by omega)
    rw [beBytes, beVal_append, ih _ hdiv]
    omega

/-- `decode (encode n)` for the varint `u64` codec recovers `n`. -/
theorem decodeU64_encodeU64 (n : Nat) (hn : n < 2 ^ 64) :
    decodeU64 (encodeU64 n) = some n := by
  unfold encodeU64
  by_cases h1 : n ≤ 250
  · simp [h1, decodeU64]
  · by_cases h2 : n < 2 ^ 16
    · have hb := beBytes_spec 2 n (by omega)
      simp only [beBytes] at hb
      have hb2 : beVal [n / 256 % 256, n % 256] = n := by simpa using hb
      simp [h1, decodeU64, beBytes, hb2, show n < 65536 by omega]
    · by_cases h3 : n < 2 ^ 32
      · have hb := beBytes_spec 4 n (by omega)
        simp only [beBytes] at hb
        have hb4 : beVal [n / 256 / 256 / 256 % 256, n / 256 / 256 % 256,
            n / 256 % 256, n % 256] = n := by simpa using hb
        simp [h1, decodeU64, beBytes, hb4, show ¬ n < 65536 by omega,
          show n < 4294967296 by omega]
      · have hb := beBytes_spec 8 n (by omega)
        simp only [beBytes] at hb
        have hb8 : beVal [n / 256 / 256 / 256 / 256 / 256 / 256 / 256 % 256,
            n / 256 / 256 / 256 / 256 / 256 / 256 % 256,
            n / 256 / 256 / 256 / 256 / 256 % 256,
            n / 256 / 256 / 256 / 256 % 256, n / 256 / 256 / 256 % 256,
            n / 256 / 256 % 256, n / 256 % 256, n % 256] = n := by simpa using hb
        simp [h1, decodeU64, beBytes, hb8, show ¬ n < 65536 by omega,
          show ¬ n < 4294967296 by omega]

/-! ### Helper lemmas -/



theorem sledContains_ok {s : StoreSt} {k : Bytes} {b : Bool} {s2 : StoreSt}
    (h : sledContains s k = (.ok b, s2)) :
    s2.entries = s.entries ∧ b = (lookupB s.entries k).isSome := by
  unfold sledContains StoreSt.takeFault at h
  rcases hf : s.faults with _ | ⟨c, rest⟩
  · rw [hf] at h
    simp only [Prod.mk.injEq] at h
    obtain ⟨h1, h2⟩ := h
    rw [← h2]
    simp only [Except.ok.injEq] at h1
    exact ⟨rfl, h1.symm⟩
  · rw [hf] at h
    cases c with
    | none =>
      simp only [Prod.mk.injEq] at h
      obtain ⟨h1, h2⟩ := h
      rw [← h2]
      simp only [Except.ok.injEq] at h1
      exact ⟨rfl, h1.symm⟩
    | some code => simp at h

/-- The two formulations of the generation retry loop agree, step by step. -/
theorem generateLoop_eq_specLoop {K V E : Type} (cK : Codec K) (cV : Codec V)
    (conv : Error → E) (mkId : Nat → Except E K) (mkData : K → Except E V) :
    ∀ (fuel : Nat) (kb vb : Buffer) (s : StoreSt) (log : GenLog K),
      generateLoop cK cV conv mkId mkData fuel kb vb s log =
        generateSpecLoop cK cV conv mkId mkData fuel kb vb s log := by
  intro fuel
  induction fuel with
  | zero => intro kb vb s log; rfl
  | succ n ih =>
    intro kb vb s log
    rw [generateLoop, generateSpecLoop]
    rcases hg : sledGenerateId s with ⟨eg | gid, s1⟩
    · simp [hg]
    · simp only [hg]
      rcases hid : mkId gid with e | id
      · simp
      · simp only []
        rcases hke : cK.enc id with e | ek
        · simp [Tree.contains_key_raw, Buffer.encode, hke]
        · simp only [Tree.contains_key_raw, Buffer.encode, hke]
          rcases hc : sledContains s1 ek with ⟨ec | b, s2⟩
          · simp [hc]
          · obtain ⟨hent, hb⟩ := sledContains_ok hc
            cases b with
            | true =>
              simp only [hc, if_true]
              exact ih _ _ _ _
            | false =>
              have hlk : lookupB s2.entries ek = none := by
                rw [hent]
                cases hl : lookupB s1.entries ek with
                | none => rfl
                | some bv => rw [hl] at hb; simp at hb
              simp only [hc, if_false, Bool.false_eq_true]
              rcases hd : mkData id with e | data
              · simp
              · simp only [Tree.insert_raw, Buffer.encode, hke]
                rcases hve : cV.enc data with e | ev
                · simp [hve]
                · simp only [hve]
                  unfold sledInsert StoreSt.takeFault
                  rcases hf2 : s2.faults with _ | ⟨c, rest⟩
                  · simp [hlk]
                  · cases c with
                    | none => simp [hlk]
                    | some code => simp

/-! ### Claims -/

/-- C1: for every configured builder, `generate` follows exactly the loop of
the specification: fresh raw id from the store, id-maker to a candidate key,
presence check in the tree; if absent, data-maker then insert and return the
pair; if present, yield once and restart from the id-generation step — with
two buffers acquired before the loop and both returned after it. -/
theorem c1_generate_follows_spec_loop {K V E σ : Type} (cK : Codec K)
    (cV : Codec V) (A : Allocation σ) (conv : Error → E)
    (mkId : Nat → Except E K) (mkData : K → Except E V) (fuel : Nat)
    (al : σ) (s : StoreSt) :
    generate cK cV A conv mkId mkData fuel al s =
      generateSpec cK cV A conv mkId mkData fuel al s := by
  simp only [generate, generateSpec, generateLoop_eq_specLoop]

/-- C9: decoding the bytes produced by encoding a value yields the value
back: `decode ∘ encode` is the identity under the crate's fixed bincode
configuration (varint, big endian, no limit), stated for the `u64` values
the crate itself serializes. -/
theorem c9_decode_encode_roundtrip (n : Nat) (h : n < 2 ^ 64) :
    codecU64.enc n = .ok (encodeU64 n) ∧
      codecU64.dec (encodeU64 n) = .ok n := by
  refine ⟨rfl, ?_⟩
  simp [codecU64, decodeU64_encodeU64 n h]

/-- C9 witness at the concrete value 300. -/
theorem c9_decode_encode_roundtrip_witness :
    (300 : Nat) < 2 ^ 64 ∧ codecU64.dec (encodeU64 300) = .ok 300 :=
  ⟨by decide, (c9_decode_encode_roundtrip 300 (by decide)).2⟩

/-- C8: the one-time strategy's `make` always produces a fresh empty buffer
and leaves the (empty) strategy state alone, and its `save` discards the
buffer; the pool strategy's `make` returns a previously saved buffer when
the pool is non-empty and a fresh one otherwise, its `save` stores the
buffer for reuse, and its `free` discards all held buffers. -/
theorem c8_allocation_strategies :
    (∀ u : Unit, (OneTime.make u).1 = Buffer.emptyBuf ∧ (OneTime.make u).2 = u)
    ∧ (∀ (b : Buffer) (u : Unit), OneTime.save b u = u)
    ∧ (∀ p : PoolSt, p ≠ [] → (Pool.make p).1 ∈ p)
    ∧ (Pool.make []).1 = Buffer.emptyBuf
    ∧ (∀ (b : Buffer) (p : PoolSt), Pool.save b p = b :: p)
    ∧ (∀ p : PoolSt, Pool.free p = []) := by
  refine ⟨fun u => ⟨rfl, rfl⟩, fun b u => rfl, ?_, rfl, fun b p => rfl,
    fun p => rfl⟩
  intro p hp
  cases p with
  | nil => exact absurd rfl hp
  | cons b rest => simp [Pool]

/-- C8 witness: a non-empty pool hands back a saved buffer. -/
theorem c8_allocation_strategies_witness :
    (Pool.make [Buffer.emptyBuf]).1 ∈ [Buffer.emptyBuf] :=
  c8_allocation_strategies.2.2.1 [Buffer.emptyBuf] (by simp)

/-- C10: cloning a `Buffer` yields a fresh empty buffer, not a copy of the
original's contents, and cloning a `Pool` yields a fresh empty pool holding
none of the original's saved buffers; the original is unchanged in both
cases. -/
theorem c10_clone_yields_fresh_empty (b : Buffer) (p : PoolSt) :
    (Buffer.cloneModel b).1 = Buffer.emptyBuf ∧ (Buffer.cloneModel b).2 = b ∧
      (Pool.cloneModel p).1 = [] ∧ (Pool.cloneModel p).2 = p :=
  ⟨rfl, rfl, rfl, rfl⟩

theorem lookupB_cons_self (l : List (Bytes × Bytes)) (k v : Bytes) :
    lookupB ((k, v) :: l) k = some v := by
  simp [lookupB, List.find?_cons]

theorem lookupB_eraseB (l : List (Bytes × Bytes)) (k : Bytes) :
    lookupB (eraseB l k) k = none := by
  have hf : (eraseB l k).find? (fun p => p.1 == k) = none := by
    rw [List.find?_eq_none]
    intro x hx
    unfold eraseB at hx
    have hpred := List.of_mem_filter hx
    simp only [Bool.not_eq_eq_eq_not, Bool.not_true] at hpred
    simp [hpred]
  unfold lookupB
  rw [hf]

theorem eraseB_of_lookupB_none (l : List (Bytes × Bytes)) (k : Bytes)
    (h : lookupB l k = none) : eraseB l k = l := by
  induction l with
  | nil => rfl
  | cons p rest ih =>
    by_cases hp : p.1 == k
    · exfalso
      simp [lookupB, List.find?_cons, hp] at h
    · simp only [Bool.not_eq_true] at hp
      have h' : lookupB rest k = none := by
        simpa [lookupB, List.find?_cons, hp] using h
      show List.filter _ (p :: rest) = p :: rest
      rw [List.filter_cons]
      simp only [hp, Bool.not_false, if_true]
      exact congrArg (List.cons p) (ih h')

/-- C6: after a successful `insert(k, v)`, a subsequent `get(k)` returns
`Some(v)`; `insert` returns `None` when `k` was not previously present and
`Some(previous_value)` when it overwrites an existing entry (shown by a
second insert over the first). -/
theorem c6_insert_then_get {K V σ τ : Type} (cK : Codec K) (cV : Codec V)
    (A : Allocation σ) (B : Allocation τ) (k : K) (v v2 : V)
    (ek ev ev2 : Bytes) (s : StoreSt) (al : σ) (bl bl2 : τ)
    (hfaults : s.faults = [])
    (hek : cK.enc k = .ok ek) (hev : cV.enc v = .ok ev)
    (hrt : cV.dec ev = .ok v) (hev2 : cV.enc v2 = .ok ev2) :
    (Tree.get_with cK cV k B bl
        (Tree.insert_with cK cV k v A al s).2.1).1 = .ok (some v)
    ∧ (lookupB s.entries ek = none →
        (Tree.insert_with cK cV k v A al s).1 = .ok none)
    ∧ (Tree.insert_with cK cV k v2 B bl2
        (Tree.insert_with cK cV k v A al s).2.1).1 = .ok (some v) := by
  refine ⟨?_, ?_, ?_⟩
  · rcases hlk0 : lookupB s.entries ek with _ | bv
    · simp [Tree.insert_with, Tree.insert_raw, Tree.get_with, Tree.get_raw,
        Buffer.encode, hek, hev, hrt, sledInsert, sledGet, StoreSt.takeFault,
        hfaults, hlk0, lookupB_cons_self]
    · rcases hdec0 : cV.dec bv with e | w
      · simp [Tree.insert_with, Tree.insert_raw, Tree.get_with, Tree.get_raw,
          Buffer.encode, hek, hev, hrt, sledInsert, sledGet,
          StoreSt.takeFault, hfaults, hlk0, hdec0, lookupB_cons_self]
      · simp [Tree.insert_with, Tree.insert_raw, Tree.get_with, Tree.get_raw,
          Buffer.encode, hek, hev, hrt, sledInsert, sledGet,
          StoreSt.takeFault, hfaults, hlk0, hdec0, lookupB_cons_self]
  · intro hlk
    simp [Tree.insert_with, Tree.insert_raw, Buffer.encode, hek, hev,
      sledInsert, StoreSt.takeFault, hfaults, hlk]
  · rcases hlk0 : lookupB s.entries ek with _ | bv
    · simp [Tree.insert_with, Tree.insert_raw, Buffer.encode, hek, hev, hev2,
        hrt, sledInsert, StoreSt.takeFault, hfaults, hlk0, lookupB_cons_self]
    · rcases hdec0 : cV.dec bv with e | w
      · simp [Tree.insert_with, Tree.insert_raw, Buffer.encode, hek, hev,
          hev2, hrt, sledInsert, StoreSt.takeFault, hfaults, hlk0, hdec0,
          lookupB_cons_self]
      · simp [Tree.insert_with, Tree.insert_raw, Buffer.encode, hek, hev,
          hev2, hrt, sledInsert, StoreSt.takeFault, hfaults, hlk0, hdec0,
          lookupB_cons_self]

/-- C6 witness: inserting 7 under key 5 into the empty store, then reading
key 5, yields 7; the first insert reports no previous value. -/
theorem c6_insert_then_get_witness :
    (Tree.get_with codecU64 codecU64 (5 : Nat) Pool []
        (Tree.insert_with codecU64 codecU64 (5 : Nat) (7 : Nat) Pool []
          ⟨[], 0, [], 0⟩).2.1).1 = .ok (some 7)
    ∧ (Tree.insert_with codecU64 codecU64 (5 : Nat) (7 : Nat) Pool []
        ⟨[], 0, [], 0⟩).1 = .ok none := by
  have h := c6_insert_then_get codecU64 codecU64 Pool Pool (5 : Nat)
    (7 : Nat) (9 : Nat) (encodeU64 5) (encodeU64 7) (encodeU64 9)
    ⟨[], 0, [], 0⟩ [] [] [] rfl rfl rfl (by rfl) rfl
  exact ⟨h.1, h.2.1 (by rfl)⟩

/-- C7: `remove(k)` on an absent key returns `None` and leaves the entries
unchanged; on a present key it returns `Some(old_value)` and a subsequent
`contains_key(k)` is false. -/
theorem c7_remove_semantics {K V σ τ : Type} (cK : Codec K) (cV : Codec V)
    (A : Allocation σ) (B : Allocation τ) (k : K) (ek : Bytes) (s : StoreSt)
    (al : σ) (bl : τ) (hfaults : s.faults = [])
    (hek : cK.enc k = .ok ek) :
    (lookupB s.entries ek = none →
      (Tree.remove_with cK cV k A al s).1 = (.ok none : Except Error (Option V))
      ∧ (Tree.remove_with cK cV k A al s : Except Error (Option V) × StoreSt × σ).2.1.entries = s.entries)
    ∧ (∀ (bv : Bytes) (oldv : V), lookupB s.entries ek = some bv →
        cV.dec bv = .ok oldv →
        (Tree.remove_with cK cV k A al s).1 = .ok (some oldv)
        ∧ (Tree.contains_key_with cK k B bl
            (Tree.remove_with cK cV k A al s).2.1).1 = .ok false) := by
  constructor
  · intro hlk
    constructor
    · simp [Tree.remove_with, Tree.remove_raw, Buffer.encode, hek,
        sledRemove, StoreSt.takeFault, hfaults, hlk]
    · simp [Tree.remove_with, Tree.remove_raw, Buffer.encode, hek,
        sledRemove, StoreSt.takeFault, hfaults, hlk,
        eraseB_of_lookupB_none s.entries ek hlk]
  · intro bv oldv hlk hdec
    constructor
    · simp [Tree.remove_with, Tree.remove_raw, Buffer.encode, hek,
        sledRemove, StoreSt.takeFault, hfaults, hlk, hdec]
    · simp [Tree.remove_with, Tree.remove_raw, Tree.contains_key_with,
        Tree.contains_key_raw, Buffer.encode, hek, sledRemove, sledContains,
        StoreSt.takeFault, hfaults, hlk, hdec, lookupB_eraseB]

/-- C7 witness: removing key 5 from a store holding 7 under it returns 7 and
a subsequent contains-check is false; removing it from the empty store
returns nothing and leaves the entries unchanged. -/
theorem c7_remove_semantics_witness :
    ((Tree.remove_with codecU64 codecU64 (5 : Nat) Pool []
        ⟨[(encodeU64 5, encodeU64 7)], 0, [], 0⟩).1 = .ok (some 7)
      ∧ (Tree.contains_key_with codecU64 (5 : Nat) Pool []
          (Tree.remove_with codecU64 codecU64 (5 : Nat) Pool []
            ⟨[(encodeU64 5, encodeU64 7)], 0, [], 0⟩).2.1).1 = .ok false)
    ∧ (Tree.remove_with codecU64 codecU64 (5 : Nat) Pool []
        (⟨[], 0, [], 0⟩ : StoreSt)).1 = .ok none := by
  constructor
  · exact (c7_remove_semantics codecU64 codecU64 Pool Pool (5 : Nat)
      (encodeU64 5) ⟨[(encodeU64 5, encodeU64 7)], 0, [], 0⟩ [] [] rfl
      rfl).2 (encodeU64 7) 7 (by rfl) (by rfl)
  · exact ((c7_remove_semantics codecU64 codecU64 Pool Pool (5 : Nat)
      (encodeU64 5) ⟨[], 0, [], 0⟩ [] [] rfl rfl).1 (by rfl)).1

theorem pool_make_save_length (p : PoolSt) (b : Buffer) :
    (Pool.save b (Pool.make p).2).length = max p.length 1 := by
  cases p with
  | nil => rfl
  | cons x rest =>
    simp only [Pool, List.length_cons]
    omega

theorem pool_make2_save2_length (p : PoolSt) (b c : Buffer) :
    (Pool.save c (Pool.save b (Pool.make (Pool.make p).2).2)).length =
      max p.length 2 := by
  cases p with
  | nil => rfl
  | cons x rest =>
    cases rest with
    | nil => rfl
    | cons y rest2 =>
      simp only [Pool, List.length_cons]
      omega

theorem sledGet_calls (s : StoreSt) (k : Bytes) :
    (sledGet s k).2.calls = s.calls + 1 := by
  unfold sledGet StoreSt.takeFault
  rcases hf : s.faults with _ | ⟨c, rest⟩
  · simp
  · cases c <;> simp

theorem sledContains_calls (s : StoreSt) (k : Bytes) :
    (sledContains s k).2.calls = s.calls + 1 := by
  unfold sledContains StoreSt.takeFault
  rcases hf : s.faults with _ | ⟨c, rest⟩
  · simp
  · cases c <;> simp

theorem sledRemove_calls (s : StoreSt) (k : Bytes) :
    (sledRemove s k).2.calls = s.calls + 1 := by
  unfold sledRemove StoreSt.takeFault
  rcases hf : s.faults with _ | ⟨c, rest⟩
  · simp
  · cases c <;> simp

theorem sledInsert_calls (s : StoreSt) (k v : Bytes) :
    (sledInsert s k v).2.calls = s.calls + 1 := by
  unfold sledInsert StoreSt.takeFault
  rcases hf : s.faults with _ | ⟨c, rest⟩
  · simp
  · cases c <;> simp

theorem get_raw_calls {K V : Type} (cK : Codec K) (cV : Codec V) (k : K)
    (kb : Buffer) (s : StoreSt) :
    (Tree.get_raw cK cV k kb s).2.2.calls ≤ s.calls + 1
    ∧ (∀ ek, cK.enc k = .ok ek →
        (Tree.get_raw cK cV k kb s).2.2.calls = s.calls + 1) := by
  rcases henc : cK.enc k with e | ek
  · constructor
    · simp [Tree.get_raw, Buffer.encode, henc]
    · intro ek h
      exact absurd h (by simp)
  · have heq : ∀ ek2, cK.enc k = .ok ek2 → ek2 = ek := by
      intro ek2 h
      rw [henc] at h
      simpa using h.symm
    have hc := sledGet_calls s ek
    rcases hr : sledGet s ek with ⟨er | ov, s1⟩
    · rw [hr] at hc
      simp only [Tree.get_raw, Buffer.encode, henc, hr]
      exact ⟨le_of_eq hc, fun _ _ => hc⟩
    · rw [hr] at hc
      cases ov with
      | none =>
        simp only [Tree.get_raw, Buffer.encode, henc, hr]
        exact ⟨le_of_eq hc, fun _ _ => hc⟩
      | some bv =>
        rcases hd : cV.dec bv with e | v
        · simp only [Tree.get_raw, Buffer.encode, henc, hr, hd]
          exact ⟨le_of_eq hc, fun _ _ => hc⟩
        · simp only [Tree.get_raw, Buffer.encode, henc, hr, hd]
          exact ⟨le_of_eq hc, fun _ _ => hc⟩

theorem contains_key_raw_calls {K : Type} (cK : Codec K) (k : K)
    (kb : Buffer) (s : StoreSt) :
    (Tree.contains_key_raw cK k kb s).2.2.calls ≤ s.calls + 1
    ∧ (∀ ek, cK.enc k = .ok ek →
        (Tree.contains_key_raw cK k kb s).2.2.calls = s.calls + 1) := by
  rcases henc : cK.enc k with e | ek
  · constructor
    · simp [Tree.contains_key_raw, Buffer.encode, henc]
    · intro ek h
      exact absurd h (by simp)
  · have hc := sledContains_calls s ek
    rcases hr : sledContains s ek with ⟨er | b, s1⟩
    · rw [hr] at hc
      simp only [Tree.contains_key_raw, Buffer.encode, henc, hr]
      exact ⟨le_of_eq hc, fun _ _ => hc⟩
    · rw [hr] at hc
      simp only [Tree.contains_key_raw, Buffer.encode, henc, hr]
      exact ⟨le_of_eq hc, fun _ _ => hc⟩

theorem remove_raw_calls {K V : Type} (cK : Codec K) (cV : Codec V) (k : K)
    (kb : Buffer) (s : StoreSt) :
    (Tree.remove_raw cK cV k kb s).2.2.calls ≤ s.calls + 1
    ∧ (∀ ek, cK.enc k = .ok ek →
        (Tree.remove_raw cK cV k kb s).2.2.calls = s.calls + 1) := by
  rcases henc : cK.enc k with e | ek
  · constructor
    · simp [Tree.remove_raw, Buffer.encode, henc]
    · intro ek h
      exact absurd h (by simp)
  · have hc := sledRemove_calls s ek
    rcases hr : sledRemove s ek with ⟨er | ov, s1⟩
    · rw [hr] at hc
      simp only [Tree.remove_raw, Buffer.encode, henc, hr]
      exact ⟨le_of_eq hc, fun _ _ => hc⟩
    · rw [hr] at hc
      cases ov with
      | none =>
        simp only [Tree.remove_raw, Buffer.encode, henc, hr]
        exact ⟨le_of_eq hc, fun _ _ => hc⟩
      | some bv =>
        rcases hd : cV.dec bv with e | v
        · simp only [Tree.remove_raw, Buffer.encode, henc, hr, hd]
          exact ⟨le_of_eq hc, fun _ _ => hc⟩
        · simp only [Tree.remove_raw, Buffer.encode, henc, hr, hd]
          exact ⟨le_of_eq hc, fun _ _ => hc⟩

theorem insert_raw_calls {K V : Type} (cK : Codec K) (cV : Codec V)
    (k : K) (v : V) (kb vb : Buffer) (s : StoreSt) :
    (Tree.insert_raw cK cV k v kb vb s).2.2.2.calls ≤ s.calls + 1
    ∧ (∀ ek ev, cK.enc k = .ok ek → cV.enc v = .ok ev →
        (Tree.insert_raw cK cV k v kb vb s).2.2.2.calls = s.calls + 1) := by
  rcases henc : cK.enc k with e | ek
  · constructor
    · simp [Tree.insert_raw, Buffer.encode, henc]
    · intro ek ev h
      exact absurd h (by simp)
  · rcases hev : cV.enc v with e | ev
    · constructor
      · simp [Tree.insert_raw, Buffer.encode, henc, hev]
      · intro ek2 ev2 _ h
        exact absurd h (by simp)
    · have hc := sledInsert_calls s ek ev
      rcases hr : sledInsert s ek ev with ⟨er | ov, s1⟩
      · rw [hr] at hc
        simp only [Tree.insert_raw, Buffer.encode, henc, hev, hr]
        exact ⟨le_of_eq hc, fun _ _ _ _ => hc⟩
      · rw [hr] at hc
        cases ov with
        | none =>
          simp only [Tree.insert_raw, Buffer.encode, henc, hev, hr]
          exact ⟨le_of_eq hc, fun _ _ _ _ => hc⟩
        | some bv =>
          rcases hd : cV.dec bv with e | w
          · simp only [Tree.insert_raw, Buffer.encode, henc, hev, hr, hd]
            exact ⟨le_of_eq hc, fun _ _ _ _ => hc⟩
          · simp only [Tree.insert_raw, Buffer.encode, henc, hev, hr, hd]
            exact ⟨le_of_eq hc, fun _ _ _ _ => hc⟩

/-- C5: every typed tree operation takes one buffer (get, contains, remove)
or two (insert) from the pool and gives every one of them back before
returning, on the error path as well as the success path (the pool's size is
conserved: `max |p| 1`, resp. `max |p| 2`, on every path); each operation
performs at most one raw store call, and exactly one whenever the encoding
of its arguments succeeds (the store is reached on every path except an
encode failure, and decode/store failures happen at or after the single
call); `generate` likewise returns both of its buffers to the pool whenever
it returns at all, success or error. -/
theorem c5_buffers_returned_single_call {K V : Type} (cK : Codec K)
    (cV : Codec V) (k : K) (v : V) (p : PoolSt) (s : StoreSt) :
    ((Tree.get_with cK cV k Pool p s).2.2.length = max p.length 1
      ∧ (Tree.get_with cK cV k Pool p s).2.1.calls ≤ s.calls + 1
      ∧ (∀ ek, cK.enc k = .ok ek →
          (Tree.get_with cK cV k Pool p s).2.1.calls = s.calls + 1))
    ∧ ((Tree.contains_key_with cK k Pool p s).2.2.length = max p.length 1
      ∧ (Tree.contains_key_with cK k Pool p s).2.1.calls ≤ s.calls + 1
      ∧ (∀ ek, cK.enc k = .ok ek →
          (Tree.contains_key_with cK k Pool p s).2.1.calls = s.calls + 1))
    ∧ (((Tree.remove_with cK cV k Pool p s :
          Except Error (Option V) × StoreSt × PoolSt)).2.2.length = max p.length 1
      ∧ (Tree.remove_with cK cV k Pool p s :
          Except Error (Option V) × StoreSt × PoolSt).2.1.calls ≤ s.calls + 1
      ∧ (∀ ek, cK.enc k = .ok ek →
          (Tree.remove_with cK cV k Pool p s :
            Except Error (Option V) × StoreSt × PoolSt).2.1.calls = s.calls + 1))
    ∧ ((Tree.insert_with cK cV k v Pool p s).2.2.length = max p.length 2
      ∧ (Tree.insert_with cK cV k v Pool p s).2.1.calls ≤ s.calls + 1
      ∧ (∀ ek ev, cK.enc k = .ok ek → cV.enc v = .ok ev →
          (Tree.insert_with cK cV k v Pool p s).2.1.calls = s.calls + 1))
    ∧ (∀ {E : Type} (conv : Error → E) (mkId : Nat → Except E K)
        (mkData : K → Except E V) (fuel : Nat) (out : Except E (K × V))
        (s1 : StoreSt) (p1 : PoolSt) (log : GenLog K),
        generate cK cV Pool conv mkId mkData fuel p s =
            some (out, s1, p1, log) →
          p1.length = max p.length 2) := by
  refine ⟨⟨?_, ?_, ?_⟩, ⟨?_, ?_, ?_⟩, ⟨?_, ?_, ?_⟩, ⟨?_, ?_, ?_⟩, ?_⟩
  · exact pool_make_save_length p _
  · exact (get_raw_calls cK cV k _ s).1
  · exact fun ek h => (get_raw_calls cK cV k _ s).2 ek h
  · exact pool_make_save_length p _
  · exact (contains_key_raw_calls cK k _ s).1
  · exact fun ek h => (contains_key_raw_calls cK k _ s).2 ek h
  · exact pool_make_save_length p _
  · exact (remove_raw_calls cK cV k _ s).1
  · exact fun ek h => (remove_raw_calls cK cV k _ s).2 ek h
  · exact pool_make2_save2_length p _ _
  · exact (insert_raw_calls cK cV k v _ _ s).1
  · exact fun ek ev h1 h2 => (insert_raw_calls cK cV k v _ _ s).2 ek ev h1 h2
  · intro E conv mkId mkData fuel out s1 p1 log h
    simp only [generate] at h
    rcases hl : generateLoop cK cV conv mkId mkData fuel
        (Pool.make p).1 (Pool.make (Pool.make p).2).1 s ⟨0, 0, []⟩ with
      _ | ⟨o, kb1, vb1, so, lg⟩
    · rw [hl] at h
      simp at h
    · rw [hl] at h
      simp only [Option.some.injEq, Prod.mk.injEq] at h
      obtain ⟨-, -, hp1, -⟩ := h
      rw [← hp1]
      exact pool_make2_save2_length p _ _

/-- C5 witness: one call for a concrete get on a fault-free store, and both
generate buffers back in the pool after a store-failing generation. -/
theorem c5_buffers_returned_single_call_witness :
    (Tree.get_with codecU64 codecU64 (5 : Nat) Pool []
      (⟨[], 0, [], 0⟩ : StoreSt)).2.1.calls = 0 + 1
    ∧ ([Buffer.emptyBuf, Buffer.emptyBuf] : PoolSt).length =
        max ([] : PoolSt).length 2 := by
  constructor
  · exact (c5_buffers_returned_single_call codecU64 codecU64 5 7 []
      ⟨[], 0, [], 0⟩).1.2.2 (encodeU64 5) rfl
  · exact (c5_buffers_returned_single_call codecU64 codecU64 5 7 []
      ⟨[], 0, [some 3], 0⟩).2.2.2.2 (fun e => e) (fun n => .ok n)
      (fun k => .ok k) 1 (.error (.sled 3)) ⟨[], 0, [], 1⟩
      [Buffer.emptyBuf, Buffer.emptyBuf] ⟨0, 0, []⟩ rfl

theorem sledGenerateId_mk (es : List (Bytes × Bytes)) (nid cl : Nat) :
    sledGenerateId ⟨es, nid, [], cl⟩ = (.ok nid, ⟨es, nid + 1, [], cl + 1⟩) :=
  rfl

theorem sledContains_mk (es : List (Bytes × Bytes)) (nid cl : Nat)
    (k : Bytes) :
    sledContains ⟨es, nid, [], cl⟩ k =
      (.ok (lookupB es k).isSome, ⟨es, nid, [], cl + 1⟩) :=
  rfl

theorem sledInsert_mk (es : List (Bytes × Bytes)) (nid cl : Nat)
    (k v : Bytes) :
    sledInsert ⟨es, nid, [], cl⟩ k v =
      (.ok (lookupB es k), ⟨(k, v) :: eraseB es k, nid, [], cl + 1⟩) :=
  rfl

/-- C2: the retry loop never inserts a key its presence check found present:
with an id-maker yielding an already-present key on the first attempt and a
fresh key on the second, `generate` retries (one yield) and succeeds with
the fresh key, the only key ever passed to the raw insert; and the loop has
no retry cap: if every attempt collides, the loop is still running after any
number of iterations — it can only terminate on success or on a hard
error. -/
theorem c2_collision_retry_and_unbounded {K V E σ : Type} (cK : Codec K)
    (cV : Codec V) (A : Allocation σ) (conv : Error → E) :
    (∀ (mkId : Nat → Except E K) (mkData : K → Except E V) (s : StoreSt)
        (al : σ) (fuel : Nat) (k0 k1 : K) (ek0 ek1 ev1 : Bytes) (v1 : V),
        s.faults = [] →
        mkId s.nextId = .ok k0 →
        cK.enc k0 = .ok ek0 →
        (lookupB s.entries ek0).isSome = true →
        mkId (s.nextId + 1) = .ok k1 →
        cK.enc k1 = .ok ek1 →
        lookupB s.entries ek1 = none →
        mkData k1 = .ok v1 →
        cV.enc v1 = .ok ev1 →
        2 ≤ fuel →
        ∃ s1 al1 log, generate cK cV A conv mkId mkData fuel al s =
            some (.ok (k1, v1), s1, al1, log)
          ∧ log.inserts = [k1] ∧ log.yields = 1)
    ∧ (∀ (mkId : Nat → Except E K) (mkData : K → Except E V) (s : StoreSt)
        (al : σ),
        s.faults = [] →
        (∀ n, ∃ k ek, mkId n = .ok k ∧ cK.enc k = .ok ek ∧
          (lookupB s.entries ek).isSome = true) →
        ∀ fuel, generate cK cV A conv mkId mkData fuel al s = none) := by
  constructor
  · intro mkId mkData s al fuel k0 k1 ek0 ek1 ev1 v1 hfaults hid0 hek0 hpres
      hid1 hek1 habs hdat hev1 hfuel
    obtain ⟨es, nid, fl, cl⟩ := s
    replace hfaults : fl = [] := hfaults
    subst hfaults
    replace hid0 : mkId nid = .ok k0 := hid0
    replace hpres : (lookupB es ek0).isSome = true := hpres
    replace hid1 : mkId (nid + 1) = .ok k1 := hid1
    replace habs : lookupB es ek1 = none := habs
    obtain ⟨m, rfl⟩ : ∃ m, fuel = m + 2 := ⟨fuel - 2, by omega⟩
    simp only [generate]
    rw [show m + 2 = m + 1 + 1 from rfl, generateLoop]
    simp only [sledGenerateId_mk, hid0, Tree.contains_key_raw, Buffer.encode,
      hek0, sledContains_mk, hpres]
    rw [generateLoop]
    simp only [sledGenerateId_mk, hid1, Tree.contains_key_raw, Buffer.encode,
      hek1, sledContains_mk, habs, Option.isSome_none, Bool.false_eq_true,
      if_false, hdat, Tree.insert_raw, hev1, sledInsert_mk]
    exact ⟨_, _, _, rfl, rfl, rfl⟩
  · intro mkId mkData s al hfaults hcol fuel
    obtain ⟨es, nid, fl, cl⟩ := s
    replace hfaults : fl = [] := hfaults
    subst hfaults
    replace hcol : ∀ n, ∃ k ek, mkId n = .ok k ∧ cK.enc k = .ok ek ∧
        (lookupB es ek).isSome = true := hcol
    have hloop : ∀ (n : Nat) (kb vb : Buffer) (nid2 cl2 : Nat)
        (log : GenLog K),
        generateLoop cK cV conv mkId mkData n kb vb ⟨es, nid2, [], cl2⟩ log =
          none := by
      intro n
      induction n with
      | zero => intros; rfl
      | succ m ih =>
        intro kb vb nid2 cl2 log
        obtain ⟨k, ek, hmk, henc, hsome⟩ := hcol nid2
        rw [generateLoop]
        simp only [sledGenerateId_mk, hmk, Tree.contains_key_raw,
          Buffer.encode, henc, sledContains_mk, hsome]
        exact ih _ _ _ _ _
    simp only [generate, hloop]

/-- C2 witness: concrete collision-then-fresh run (key 5 present, id-maker
maps raw id 0 to 5 and raw id 1 to 7), and a concrete always-colliding
id-maker keeping the loop running after 3 iterations. -/
theorem c2_collision_retry_and_unbounded_witness :
    (∃ s1 al1 log, generate codecU64 codecU64 Pool (fun _ => (99 : Nat))
        (fun n => .ok (if n = 0 then 5 else 7)) (fun k => .ok (k + 1)) 2 []
        ⟨[(encodeU64 5, encodeU64 55)], 0, [], 0⟩ =
          some (.ok (7, 8), s1, al1, log)
        ∧ log.inserts = [7] ∧ log.yields = 1)
    ∧ generate codecU64 codecU64 Pool (fun _ => (99 : Nat))
        (fun _ => .ok 5) (fun k => .ok (k + 1)) 3 []
        ⟨[(encodeU64 5, encodeU64 55)], 0, [], 0⟩ = none := by
  constructor
  · exact (c2_collision_retry_and_unbounded codecU64 codecU64 Pool
      (fun _ => 99)).1 (fun n => .ok (if n = 0 then 5 else 7))
      (fun k => .ok (k + 1)) ⟨[(encodeU64 5, encodeU64 55)], 0, [], 0⟩ []
      2 5 7 (encodeU64 5) (encodeU64 7) (encodeU64 8) 8 rfl rfl rfl rfl rfl
      rfl rfl rfl rfl (by decide)
  · exact (c2_collision_retry_and_unbounded codecU64 codecU64 Pool
      (fun _ => 99)).2 (fun _ => .ok 5) (fun k => .ok (k + 1))
      ⟨[(encodeU64 5, encodeU64 55)], 0, [], 0⟩ [] rfl
      (fun n => ⟨5, encodeU64 5, rfl, rfl, rfl⟩) 3

theorem sledGenerateId_mk_fault (es : List (Bytes × Bytes)) (nid cl c : Nat)
    (rest : List (Option Nat)) :
    sledGenerateId ⟨es, nid, some c :: rest, cl⟩ =
      (.error (.sled c), ⟨es, nid, rest, cl + 1⟩) :=
  rfl

theorem sledGenerateId_mk_skip (es : List (Bytes × Bytes)) (nid cl : Nat)
    (rest : List (Option Nat)) :
    sledGenerateId ⟨es, nid, none :: rest, cl⟩ =
      (.ok nid, ⟨es, nid + 1, rest, cl + 1⟩) :=
  rfl

theorem sledContains_mk_fault (es : List (Bytes × Bytes)) (nid cl c : Nat)
    (rest : List (Option Nat)) (k : Bytes) :
    sledContains ⟨es, nid, some c :: rest, cl⟩ k =
      (.error (.sled c), ⟨es, nid, rest, cl + 1⟩) :=
  rfl

theorem sledContains_mk_skip (es : List (Bytes × Bytes)) (nid cl : Nat)
    (rest : List (Option Nat)) (k : Bytes) :
    sledContains ⟨es, nid, none :: rest, cl⟩ k =
      (.ok (lookupB es k).isSome, ⟨es, nid, rest, cl + 1⟩) :=
  rfl

theorem sledInsert_mk_fault (es : List (Bytes × Bytes)) (nid cl c : Nat)
    (rest : List (Option Nat)) (k v : Bytes) :
    sledInsert ⟨es, nid, some c :: rest, cl⟩ k v =
      (.error (.sled c), ⟨es, nid, rest, cl + 1⟩) :=
  rfl

/-- C4: internal failures go through the configured error conversor exactly
at the three points where an internal operation can fail — raw id
generation, the existence check (store fault or key-serialization failure),
and the final insert — while an error coming out of the caller's id-maker
or data-maker hook is returned to the caller unchanged, never through the
conversor. -/
theorem c4_error_conversion_points {K V E σ : Type} (cK : Codec K)
    (cV : Codec V) (A : Allocation σ) (conv : Error → E)
    (mkId : Nat → Except E K) (mkData : K → Except E V) :
    (∀ (es : List (Bytes × Bytes)) (nid cl c : Nat)
        (rest : List (Option Nat)) (al : σ) (fuel : Nat), 1 ≤ fuel →
      ∃ s1 al1 log, generate cK cV A conv mkId mkData fuel al
          ⟨es, nid, some c :: rest, cl⟩ =
        some (.error (conv (.sled c)), s1, al1, log))
    ∧ (∀ (es : List (Bytes × Bytes)) (nid cl : Nat) (al : σ) (fuel : Nat)
        (e : E), mkId nid = .error e → 1 ≤ fuel →
      ∃ s1 al1 log, generate cK cV A conv mkId mkData fuel al
          ⟨es, nid, [], cl⟩ = some (.error e, s1, al1, log))
    ∧ (∀ (es : List (Bytes × Bytes)) (nid cl : Nat) (al : σ) (fuel : Nat)
        (k0 : K) (er : Error), mkId nid = .ok k0 → cK.enc k0 = .error er →
        1 ≤ fuel →
      ∃ s1 al1 log, generate cK cV A conv mkId mkData fuel al
          ⟨es, nid, [], cl⟩ = some (.error (conv er), s1, al1, log))
    ∧ (∀ (es : List (Bytes × Bytes)) (nid cl c : Nat)
        (rest : List (Option Nat)) (al : σ) (fuel : Nat) (k0 : K)
        (ek0 : Bytes), mkId nid = .ok k0 → cK.enc k0 = .ok ek0 → 1 ≤ fuel →
      ∃ s1 al1 log, generate cK cV A conv mkId mkData fuel al
          ⟨es, nid, none :: some c :: rest, cl⟩ =
        some (.error (conv (.sled c)), s1, al1, log))
    ∧ (∀ (es : List (Bytes × Bytes)) (nid cl : Nat) (al : σ) (fuel : Nat)
        (k0 : K) (ek0 : Bytes) (e : E), mkId nid = .ok k0 →
        cK.enc k0 = .ok ek0 → lookupB es ek0 = none → mkData k0 = .error e →
        1 ≤ fuel →
      ∃ s1 al1 log, generate cK cV A conv mkId mkData fuel al
          ⟨es, nid, [], cl⟩ = some (.error e, s1, al1, log))
    ∧ (∀ (es : List (Bytes × Bytes)) (nid cl c : Nat)
        (rest : List (Option Nat)) (al : σ) (fuel : Nat) (k0 : K)
        (ek0 : Bytes) (v0 : V) (ev0 : Bytes), mkId nid = .ok k0 →
        cK.enc k0 = .ok ek0 → lookupB es ek0 = none → mkData k0 = .ok v0 →
        cV.enc v0 = .ok ev0 → 1 ≤ fuel →
      ∃ s1 al1 log, generate cK cV A conv mkId mkData fuel al
          ⟨es, nid, none :: none :: some c :: rest, cl⟩ =
        some (.error (conv (.sled c)), s1, al1, log)) := by
  refine ⟨?_, ?_, ?_, ?_, ?_, ?_⟩
  · intro es nid cl c rest al fuel hfuel
    obtain ⟨m, rfl⟩ : ∃ m, fuel = m + 1 := ⟨fuel - 1, by omega⟩
    simp only [generate]
    rw [generateLoop]
    simp only [sledGenerateId_mk_fault]
    exact ⟨_, _, _, rfl⟩
  · intro es nid cl al fuel e hmk hfuel
    obtain ⟨m, rfl⟩ : ∃ m, fuel = m + 1 := ⟨fuel - 1, by omega⟩
    simp only [generate]
    rw [generateLoop]
    simp only [sledGenerateId_mk, hmk]
    exact ⟨_, _, _, rfl⟩
  · intro es nid cl al fuel k0 er hmk henc hfuel
    obtain ⟨m, rfl⟩ : ∃ m, fuel = m + 1 := ⟨fuel - 1, by omega⟩
    simp only [generate]
    rw [generateLoop]
    simp only [sledGenerateId_mk, hmk, Tree.contains_key_raw, Buffer.encode,
      henc]
    exact ⟨_, _, _, rfl⟩
  · intro es nid cl c rest al fuel k0 ek0 hmk henc hfuel
    obtain ⟨m, rfl⟩ : ∃ m, fuel = m + 1 := ⟨fuel - 1, by omega⟩
    simp only [generate]
    rw [generateLoop]
    simp only [sledGenerateId_mk_skip, hmk, Tree.contains_key_raw,
      Buffer.encode, henc, sledContains_mk_fault]
    exact ⟨_, _, _, rfl⟩
  · intro es nid cl al fuel k0 ek0 e hmk henc hlk hdat hfuel
    obtain ⟨m, rfl⟩ : ∃ m, fuel = m + 1 := ⟨fuel - 1, by omega⟩
    simp only [generate]
    rw [generateLoop]
    simp only [sledGenerateId_mk, hmk, Tree.contains_key_raw, Buffer.encode,
      henc, sledContains_mk, hlk, Option.isSome_none, Bool.false_eq_true,
      if_false, hdat]
    exact ⟨_, _, _, rfl⟩
  · intro es nid cl c rest al fuel k0 ek0 v0 ev0 hmk henc hlk hdat hev hfuel
    obtain ⟨m, rfl⟩ : ∃ m, fuel = m + 1 := ⟨fuel - 1, by omega⟩
    simp only [generate]
    rw [generateLoop]
    simp only [sledGenerateId_mk_skip, hmk, Tree.contains_key_raw,
      Buffer.encode, henc, sledContains_mk_skip, hlk, Option.isSome_none,
      Bool.false_eq_true, if_false, hdat, Tree.insert_raw, hev,
      sledInsert_mk_fault]
    exact ⟨_, _, _, rfl⟩

/-- C4 witness: with conversor `fun _ => 99`, a store fault at id generation
yields the converted error 99, while a data-maker failing with 7 yields
exactly 7, untouched. -/
theorem c4_error_conversion_points_witness :
    (∃ s1 al1 log, generate codecU64 codecU64 Pool (fun _ => (99 : Nat))
        (fun n => .ok n) (fun k => .ok k) 1 []
        ⟨[], 0, [some 3], 0⟩ = some (.error 99, s1, al1, log))
    ∧ (∃ s1 al1 log, generate codecU64 codecU64 Pool (fun _ => (99 : Nat))
        (fun n => .ok n) (fun _ => .error 7) 1 []
        ⟨[], 0, [], 0⟩ = some (.error 7, s1, al1, log)) := by
  constructor
  · exact (c4_error_conversion_points codecU64 codecU64 Pool (fun _ => 99)
      (fun n => .ok n) (fun k => .ok k)).1 [] 0 0 3 [] [] 1 (by decide)
  · exact (c4_error_conversion_points codecU64 codecU64 Pool (fun _ => 99)
      (fun n => .ok n) (fun _ => .error 7)).2.2.2.2.1 [] 0 0 [] 1 0
      (encodeU64 0) 7 rfl rfl rfl rfl (by decide)

theorem generateLoop_dataCalls {K V E : Type} (cK : Codec K) (cV : Codec V)
    (conv : Error → E) (mkId : Nat → Except E K) (mkData : K → Except E V) :
    ∀ (fuel : Nat) (kb vb : Buffer) (s : StoreSt) (log : GenLog K)
      (out : Except E (K × V)) (kb1 vb1 : Buffer) (s1 : StoreSt)
      (log1 : GenLog K),
      generateLoop cK cV conv mkId mkData fuel kb vb s log =
          some (out, kb1, vb1, s1, log1) →
        log1.dataCalls ≤ log.dataCalls + 1
        ∧ (∀ kv, out = .ok kv → log1.dataCalls = log.dataCalls + 1) := by
  intro fuel
  induction fuel with
  | zero =>
    intro kb vb s log out kb1 vb1 s1 log1 h
    exact absurd h (by simp [generateLoop])
  | succ n ih =>
    intro kb vb s log out kb1 vb1 s1 log1 h
    rw [generateLoop] at h
    repeat' split at h
    all_goals try (have hr := ih _ _ _ _ _ _ _ _ _ h; exact hr)
    all_goals
      simp only [Option.some.injEq, Prod.mk.injEq] at h
      obtain ⟨h1, h2, h3, h4, h5⟩ := h
      subst h1
      subst h5
      refine ⟨?_, ?_⟩
      · first
          | exact Nat.le_succ _
          | exact Nat.le_refl _
      · intro kv hkv
        first
          | exact Except.noConfusion hkv
          | rfl

/-- C3, behavioral half: during one run of `generate`, the data-maker hook
is invoked at most once, and exactly once when the run succeeds — on the
iteration whose presence check found the candidate key absent (the only
place the loop calls it). -/
theorem c3_data_maker_at_most_once {K V E σ : Type} (cK : Codec K)
    (cV : Codec V) (A : Allocation σ) (conv : Error → E)
    (mkId : Nat → Except E K) (mkData : K → Except E V) (fuel : Nat)
    (al : σ) (s : StoreSt) :
    genDataCalls (generate cK cV A conv mkId mkData fuel al s) ≤ 1
    ∧ genOkFlag (generate cK cV A conv mkId mkData fuel al s) ≤
        genDataCalls (generate cK cV A conv mkId mkData fuel al s) := by
  rcases hl : generateLoop cK cV conv mkId mkData fuel (A.make al).1
      (A.make (A.make al).2).1 s ⟨0, 0, []⟩ with _ | ⟨out, kb1, vb1, s1, log⟩
  · simp [generate, genDataCalls, genOkFlag, hl]
  · obtain ⟨hle, hok⟩ := generateLoop_dataCalls cK cV conv mkId mkData fuel
      _ _ _ _ _ _ _ _ _ hl
    simp only [generate, hl, genDataCalls, genOkFlag]
    constructor
    · simpa using hle
    · cases out with
      | ok kv =>
        have h1 := hok kv rfl
        simp only [h1]
        simp
      | error e => simp

end Kopidaz
